import Mathlib

/-!
Verification of the modified-gateway write-correlation protocol, fan-out teardown
and anomaly analyzer.

The development shallowly embeds the two source files:
* `cassie.js` (the `Cassie` class): the write correlator, its `pending` map,
  `finished` marker list, the `finishedProcessing` / `consistencyError` event
  handlers, `write`, `pendingExecution`, `read` and `execute`;
* `things_controller.js`: the diagnostic report computation (`seq === -1`),
  the reset branch (`seq === -2`) and the websocket handler's `cleanup`.

Machine integers of the source are JS numbers used only at integral values;
they are embedded as `Int` (timestamps, property values) and `Nat` (counters).
`Math.round(sum / len)` is embedded exactly as `⌊(2 * sum + len) / (2 * len)⌋`
(`jsRound`), which agrees with JS rounding (half toward +∞) for integer `sum`.
-/

namespace Gateway

/-- Completion tokens are the opaque strings sent by the storage server. -/
abbrev Token := String

/-- `{value, time}` records pushed on `cassie.requests` / `cassie.notifications`. -/
structure TimedValue where
  value : Int
  time : Int
deriving DecidableEq

/-- The `interval` objects pushed on `cassie.intervals`: `{start, finish}`. -/
structure WriteInterval where
  start : Int
  finish : Int
deriving DecidableEq

/-- Chars of `msg` after the first space; `none` when `msg` has no space.
Embeds `msg.indexOf(' ')` followed by `slice`. -/
def dropThroughSpace : List Char → Option (List Char)
  | [] => none
  | c :: rest => if c = ' ' then some rest else dropThroughSpace rest

/-- `msg.slice(msg.indexOf(' ') + 1)`: the token part of a `finishedProcessing`
message `"<context> <token>"`.  When `msg` contains no space, `indexOf` yields
`-1` and `slice(0)` returns the whole message. -/
def extractToken (msg : String) : String :=
  match dropThroughSpace msg.toList with
  | some rest => String.mk rest
  | none => msg

/-- JS object lookup `p[t]` (`this.pending[ts]`, `starts` lookup). -/
def plook {κ ν : Type} [DecidableEq κ] : List (κ × ν) → κ → Option ν
  | [], _ => none
  | (t', w) :: rest, t => if t' = t then some w else plook rest t

/-- JS `delete p[t]`: drop every binding of key `t`. -/
def pdel {κ ν : Type} [DecidableEq κ] (p : List (κ × ν)) (t : κ) : List (κ × ν) :=
  p.filter (fun q => decide (q.1 ≠ t))

/-- JS assignment `p[t] = w`: bind `t`, replacing any previous binding. -/
def pinsert {κ ν : Type} [DecidableEq κ] (p : List (κ × ν)) (t : κ) (w : ν) :
    List (κ × ν) :=
  (t, w) :: pdel p t

/-- `finished.splice(finished.indexOf(t), 1)`: remove the first occurrence of
`t` (only ever invoked under `finished.includes(t)`). -/
def eraseFirst : List Token → Token → List Token
  | [], _ => []
  | x :: xs, t => if x = t then xs else x :: eraseFirst xs t

/-- The mutable fields of the `Cassie` singleton that the correlation protocol
and the analyzer touch.  `starts` holds each in-flight write's
`interval.start` (the closure-captured `interval` object of `write`);
`resolutions` is the log of writes whose caller promise got `resolve()`d. -/
structure CassieState where
  count : Nat
  requests : List TimedValue
  notifications : List TimedValue
  intervals : List WriteInterval
  pending : List (Token × Nat)
  finished : List Token
  localDetectionErrors : Nat
  globalDetectionErrors : Nat
  notPersistedErrors : Nat
  delayedRequests : Nat
  dbWrites : List Int
  starts : List (Nat × Int)
  resolutions : List Nat
deriving DecidableEq

/-- The constructor's initial state: empty streams, empty maps, zero counters. -/
def initCassie : CassieState :=
  { count := 0, requests := [], notifications := [], intervals := [],
    pending := [], finished := [], localDetectionErrors := 0,
    globalDetectionErrors := 0, notPersistedErrors := 0, delayedRequests := 0,
    dbWrites := [], starts := [], resolutions := [] }

/-- Lookup of a write's recorded `interval.start`. -/
def startOf (s : CassieState) (w : Nat) : Int :=
  match plook s.starts w with
  | some v => v
  | none => 0

/-- The externally triggered events handled by `Cassie`.  `w : Nat` names one
invocation of `write` (one promise chain; JS runs its `.then` callback once).
* `consistencyError msg`: the `consistencyError` listener.
* `finishedProcessing msg now`: the `finishedProcessing` listener, `now` being
  `Date.now()` when a resolved waiter stamps `interval.finish`.
* `writeIssue w value now`: the synchronous prefix of `write` (push on
  `dbWrites`, `interval.start = Date.now()`).
* `writeAck w delayed now`: the storage acknowledgment callback of write `w`;
  `delayed = some t` models `warnings[0] == "DELAY"` with token
  `t = warnings[1]`, `delayed = none` the undelayed acknowledgment. -/
inductive CEvent where
  | consistencyError (msg : String)
  | finishedProcessing (msg : String) (now : Int)
  | writeIssue (w : Nat) (value : Int) (now : Int)
  | writeAck (w : Nat) (delayed : Option Token) (now : Int)

/-- One event handler running to completion (the process is single threaded;
each handler is atomic). Direct transcription of the two `client.on` handlers
and of `write`'s acknowledgment continuation. -/
def step (s : CassieState) : CEvent → CassieState
  | .consistencyError msg =>
    if msg.startsWith "Local Detection" then
      { s with localDetectionErrors := s.localDetectionErrors + 1 }
    else if msg.startsWith "Global detection concurrent writes" then
      { s with globalDetectionErrors := s.globalDetectionErrors + 1 }
    else if msg.startsWith "Global detection update not persisted" then
      { s with notPersistedErrors := s.notPersistedErrors + 1 }
    else s
  | .finishedProcessing msg now =>
    let ts := extractToken msg
    match plook s.pending ts with
    | some w =>
      { s with pending := pdel s.pending ts,
               intervals := s.intervals ++ [⟨startOf s w, now⟩],
               resolutions := s.resolutions ++ [w] }
    | none => { s with finished := s.finished ++ [ts] }
  | .writeIssue w value now =>
    { s with dbWrites := s.dbWrites ++ [value], starts := s.starts ++ [(w, now)] }
  | .writeAck w delayed now =>
    match delayed with
    | none =>
      { s with intervals := s.intervals ++ [⟨startOf s w, now⟩],
               resolutions := s.resolutions ++ [w] }
    | some ts =>
      if ts ∈ s.finished then
        { s with delayedRequests := s.delayedRequests + 1,
                 finished := eraseFirst s.finished ts,
                 intervals := s.intervals ++ [⟨startOf s w, now⟩],
                 resolutions := s.resolutions ++ [w] }
      else
        { s with delayedRequests := s.delayedRequests + 1,
                 pending := pinsert s.pending ts w }

/-- A whole trace of events, in arrival order. -/
def run (s : CassieState) (evs : List CEvent) : CassieState :=
  evs.foldl step s

/-- Number of storage acknowledgments for write `w` in a trace.  A JS promise's
`.then` continuation fires at most once per `write` invocation, so real traces
satisfy `ackCount evs w ≤ 1`. -/
def ackCount (evs : List CEvent) (w : Nat) : Nat :=
  evs.countP (fun e =>
    match e with
    | .writeAck w' _ _ => decide (w' = w)
    | _ => false)

/-- Number of `finishedProcessing` events whose message carries token `t`. -/
def sigCount (evs : List CEvent) (t : Token) : Nat :=
  evs.countP (fun e =>
    match e with
    | .finishedProcessing msg _ => decide (extractToken msg = t)
    | _ => false)

/-- How many times write `w`'s caller has been fulfilled. -/
def resCount (s : CassieState) (w : Nat) : Nat :=
  s.resolutions.countP (fun x => decide (x = w))

/-- How many `pending` bindings point at write `w`. -/
def pendCount (s : CassieState) (w : Nat) : Nat :=
  s.pending.countP (fun q => decide (q.2 = w))

/-- The `seq === -2` reset branch of the things controller: clears the
notification count, the four streams, and the four counters; `pending`,
`finished` (and the in-flight write bookkeeping) are not touched. -/
def resetOp (s : CassieState) : CassieState :=
  { s with count := 0, requests := [], notifications := [], intervals := [],
           delayedRequests := 0, localDetectionErrors := 0,
           globalDetectionErrors := 0, notPersistedErrors := 0, dbWrites := [] }

/-! ### The anomaly analyzer (`seq === -1` report branch) -/

/-- The integers `j` with `lo ≤ j < hi` pushed by
`for (let j = lo; j < hi; j++)`. -/
def intRange (lo hi : Int) : List Int :=
  (List.range (hi - lo).toNat).map (fun k : Nat => lo + (k : Int))

/-- Gap filling over consecutive entries of the (sorted) write log:
`for i = 1..` push every `j` with `prev < j < current`. -/
def gaps : List Int → List Int
  | a :: b :: rest => intRange (a + 1) b ++ gaps (b :: rest)
  | _ => []

/-- `cassie.dbWrites.slice().sort((a,b) => a-b)`: ascending numeric sort. -/
def sortedWrites (l : List Int) : List Int :=
  l.insertionSort (· ≤ ·)

/-- The `lostUpdates` array: `0` is pushed when the least write differs from
`0`, then every integer strictly inside a gap of the sorted write log. -/
def lostUpdates (l : List Int) : List Int :=
  (if (sortedWrites l).head? ≠ some 0 then [0] else []) ++ gaps (sortedWrites l)

/-- Largest logged value (`0` for an empty log): the `N - 1` of the claim. -/
def listMax (l : List Int) : Int := l.foldr max 0

/-- Outcome of one iteration of the per-request classification loop. -/
inductive ReqClass where
  | lostReq
  | staleDbRead
  | reordered
  | correct
deriving DecidableEq

/-- A thrown JS error. `typeError` stands for dereferencing `undefined`. -/
inductive JsError where
  | typeError
deriving DecidableEq

/-- The `while (reqPointer < length)` classification loop.  One recursive call
per request; `np` is `notifPointer`, and `notification` is defined only while
`np` is inside the notifications list.  A lost request is reported with the
unguarded `notification.time - request.time`, so when the notification cursor
is exhausted the lost branch throws a `TypeError` and the loop aborts;
otherwise a lost request advances only the request cursor and every other
branch advances both cursors. -/
def classifyGo (notifs : List TimedValue) (dbWrites lostU : List Int) :
    List TimedValue → Nat → Except JsError (List ReqClass)
  | [], _ => .ok []
  | r :: rest, np =>
    if r.value ∈ lostU then
      match notifs.get? np with
      | some _ =>
        (classifyGo notifs dbWrites lostU rest np).map
          (fun cls => ReqClass.lostReq :: cls)
      | none => .error .typeError
    else
      match notifs.get? np with
      | some n =>
        if r.value ≠ n.value then
          (classifyGo notifs dbWrites lostU rest (np + 1)).map
            (fun cls =>
              (if dbWrites.get? np = some r.value then ReqClass.staleDbRead
               else ReqClass.reordered) :: cls)
        else
          (classifyGo notifs dbWrites lostU rest (np + 1)).map
            (fun cls => ReqClass.correct :: cls)
      | none =>
        (classifyGo notifs dbWrites lostU rest (np + 1)).map
          (fun cls => ReqClass.correct :: cls)

/-- The classification of the whole request stream, both cursors starting at
0; `.error` when the loop throws before reaching the end. -/
def classify (reqs notifs : List TimedValue) (dbWrites lostU : List Int) :
    Except JsError (List ReqClass) :=
  classifyGo notifs dbWrites lostU reqs 0

/-- Value of `notifPointer` when the loop reaches request `i`: the notification
cursor advanced exactly on the non-lost requests among the first `i`. -/
def npAt (lostU : List Int) (reqs : List TimedValue) (i : Nat) : Nat :=
  (reqs.take i).countP (fun r => decide (r.value ∉ lostU))

/-- `Math.round(sum / len)` for integer `sum` and `len > 0`:
floor of `sum / len + 1/2`. -/
def jsRound (sum : Int) (len : Nat) : Int :=
  Int.fdiv (2 * sum + len) (2 * len)

/-- Consecutive differences `l[i] - l[i-1]` (the `timeBetween` arrays). -/
def deltas : List Int → List Int
  | a :: b :: rest => (b - a) :: deltas (b :: rest)
  | _ => []

/-- `avgUpdate`: rounded mean of consecutive notification-time differences,
`0` when there are fewer than two notifications. -/
def avgUpdate (notifs : List TimedValue) : Int :=
  let tb := deltas (notifs.map (fun n => n.time))
  if tb.length > 0 then jsRound tb.sum tb.length else 0

/-- `avgWrite`: rounded mean of consecutive interval start differences,
`0` when there are fewer than two intervals. -/
def avgWrite (intervals : List WriteInterval) : Int :=
  let tb := deltas (intervals.map (fun i => i.start))
  if tb.length > 0 then jsRound tb.sum tb.length else 0

/-- `avgProcessingTime`: rounded mean of the recorded per-request latencies,
`0` only when the `processingTime` array is empty. -/
def avgProcessingTime (processingTime : List Int) : Int :=
  if processingTime.length > 0 then jsRound processingTime.sum processingTime.length
  else 0

/-- `cassie.intervals.sort((a,b) => a.start - b.start)`: stable ascending sort
by start time. -/
def sortByStart (l : List WriteInterval) : List WriteInterval :=
  l.insertionSort (fun a b => a.start ≤ b.start)

/-- The doubly nested `overlapping` loop with its `break`: each interval
contributes at most `1`, namely when some earlier interval (in the sorted
order walked so far, `seen`) finishes strictly later. -/
def overlappingGo (seen : List WriteInterval) : List WriteInterval → Nat
  | [] => 0
  | a :: rest =>
    (if seen.any (fun b => decide (b.finish > a.finish)) then 1 else 0) +
      overlappingGo (seen ++ [a]) rest

/-- The reported overlap count: the loop above over the start-sorted intervals. -/
def overlapping (l : List WriteInterval) : Nat :=
  overlappingGo [] (sortByStart l)

/-- Modelled from the spec: "number of WriteInterval pairs (i created after j)
where i's finish precedes j's finish — an O(n²) pairwise scan over
creation-ordered intervals".  Counts every such ordered pair. -/
def specPairGo (seen : List WriteInterval) : List WriteInterval → Nat
  | [] => 0
  | a :: rest =>
    seen.countP (fun b => decide (b.finish > a.finish)) + specPairGo (seen ++ [a]) rest

/-- Modelled from the spec: the pairwise overlap count over the
creation-ordered list. -/
def specPairCount (l : List WriteInterval) : Nat :=
  specPairGo [] l

/-- Finish time of the interval at position `i` of `s` (`0` out of range). -/
def finishAt (s : List WriteInterval) (i : Nat) : Int :=
  match s.get? i with
  | some a => a.finish
  | none => 0

/-! ### Storage failure handling (`execute`, `read`, `write`'s callback) -/

/-- The acknowledgment object: `rows` (assoc objects) and `info.warnings`. -/
structure QueryResult where
  rows : List (List (String × Int))
  warnings : Option (List String)
deriving DecidableEq

/-- `Cassie.execute`: awaits the client; on a rejection it logs and falls off
the `catch`, returning `undefined` (`none`) instead of propagating. -/
def executeModel (outcome : Except String QueryResult) : Option QueryResult :=
  match outcome with
  | .ok r => some r
  | .error _ => none

/-- Row lookup `row[propertyName]` (`none` = `undefined`). -/
def rowGet (row : List (String × Int)) (propertyName : String) : Option Int :=
  match row with
  | [] => none
  | (k, v) :: rest => if k = propertyName then some v else rowGet rest propertyName

/-- `Cassie.read` after the query string is built: `result.rows[0]` then
`row[propertyName]`.  Dereferencing an `undefined` `result` or `row` throws. -/
def readModel (propertyName : String) (outcome : Except String QueryResult) :
    Except JsError (Option Int) :=
  match executeModel outcome with
  | none => .error .typeError
  | some result =>
    match result.rows.get? 0 with
    | none => .error .typeError
    | some row => .ok (rowGet row propertyName)

/-- The branch taken by `write`'s `.then` callback on `result`:
`.ok (some t?)` is the delay branch with token `warnings[1]`, `.ok none` the
immediate branch; an `undefined` result throws on `result.info`. -/
def writeAckBranch (result : Option QueryResult) :
    Except JsError (Option (Option String)) :=
  match result with
  | none => .error .typeError
  | some r =>
    match r.warnings with
    | some ws => if ws.get? 0 = some "DELAY" then .ok (some (ws.get? 1)) else .ok none
    | none => .ok none

/-! ### Websocket teardown (`cleanup` in `websocketHandler`) -/

/-- The listener registries and per-connection bookkeeping `cleanup` touches.
`c : Nat` names one connection's callbacks; pairs `(thingId, c)` are the four
per-thing subscriptions installed by `addThing`. -/
@[ext]
structure HubState where
  thingAddedListeners : List Nat
  propertyChangedListeners : List Nat
  actionStatusListeners : List Nat
  eventSubs : List (Nat × Nat)
  connectedSubs : List (Nat × Nat)
  removedSubs : List (Nat × Nat)
  modifiedSubs : List (Nat × Nat)
  thingCleanups : List Nat
  heartbeatActive : Bool
deriving DecidableEq

/-- One `thingCleanup` closure: unsubscribe the four per-thing callbacks of
connection `c` from thing `tid` (each removal drops one matching entry,
`removeListener` style). -/
def thingCleanupRun (c tid : Nat) (s : HubState) : HubState :=
  { s with eventSubs := s.eventSubs.erase (tid, c),
           connectedSubs := s.connectedSubs.erase (tid, c),
           removedSubs := s.removedSubs.erase (tid, c),
           modifiedSubs := s.modifiedSubs.erase (tid, c) }

/-- The `cleanup` closure: three global `removeListener` calls, every
registered `thingCleanup`, reset of the `thingCleanups` map and
`clearInterval` of the heartbeat. -/
def cleanup (c : Nat) (s : HubState) : HubState :=
  let s1 := { s with
    thingAddedListeners := s.thingAddedListeners.erase c,
    propertyChangedListeners := s.propertyChangedListeners.erase c,
    actionStatusListeners := s.actionStatusListeners.erase c }
  let s2 := s.thingCleanups.foldl (fun acc tid => thingCleanupRun c tid acc) s1
  { s2 with thingCleanups := [], heartbeatActive := false }

/-! ### Helper lemmas on the pending map -/

lemma countP_pdel_le {κ ν : Type} [DecidableEq κ] (p : List (κ × ν)) (t : κ)
    (f : κ × ν → Bool) : (pdel p t).countP f ≤ p.countP f :=
  (List.filter_sublist p).countP_le f

lemma plook_countP_lt {κ ν : Type} [DecidableEq κ] [DecidableEq ν] :
    ∀ (p : List (κ × ν)) (t : κ) (w : ν), plook p t = some w →
      (pdel p t).countP (fun q => decide (q.2 = w)) <
        p.countP (fun q => decide (q.2 = w))
  | [], t, w, h => by simp [plook] at h
  | (a, b) :: rest, t, w, h => by
    by_cases hat : a = t
    · subst hat
      simp [plook] at h
      subst h
      have hdrop : pdel ((a, b) :: rest) a = pdel rest a := by
        simp [pdel]
      rw [hdrop]
      have hle := countP_pdel_le rest a (fun q => decide (q.2 = b))
      simp only [List.countP_cons]
      simp only [decide_eq_true_eq]
      simp
      omega
    · simp only [plook, if_neg hat] at h
      have ih := plook_countP_lt rest t w h
      have hkeep : pdel ((a, b) :: rest) t = (a, b) :: pdel rest t := by
        simp [pdel, hat]
      rw [hkeep]
      simp only [List.countP_cons]
      omega

/-- Each event can raise the combined "already fulfilled + still pending"
budget of write `w` only if it is an acknowledgment of `w` itself. -/
lemma step_resPend_le (s : CassieState) (e : CEvent) (w : Nat) :
    resCount (step s e) w + pendCount (step s e) w ≤
      resCount s w + pendCount s w + ackCount [e] w := by
  cases e with
  | consistencyError msg =>
    simp only [step]
    split_ifs <;> simp [resCount, pendCount, ackCount]
  | finishedProcessing msg now =>
    simp only [step]
    cases hp : plook s.pending (extractToken msg) with
    | none => simp [resCount, pendCount, ackCount]
    | some w' =>
      simp only [resCount, pendCount, ackCount, List.countP_append,
        List.countP_cons, List.countP_nil]
      by_cases hw : w' = w
      · subst hw
        have := plook_countP_lt s.pending (extractToken msg) w' hp
        simp
        omega
      · have := countP_pdel_le s.pending (extractToken msg)
          (fun q => decide (q.2 = w))
        simp [hw]
        omega
  | writeIssue w' value now =>
    simp [step, resCount, pendCount, ackCount]
  | writeAck w' delayed now =>
    cases delayed with
    | none =>
      simp only [step, resCount, pendCount, ackCount, List.countP_append,
        List.countP_cons, List.countP_nil]
      by_cases hw : w' = w <;> simp [hw] <;> omega
    | some ts =>
      simp only [step]
      by_cases hfin : ts ∈ s.finished
      · simp only [if_pos hfin, resCount, pendCount, ackCount,
          List.countP_append, List.countP_cons, List.countP_nil]
        by_cases hw : w' = w <;> simp [hw] <;> omega
      · simp only [if_neg hfin, resCount, pendCount, ackCount, pinsert,
          List.countP_append, List.countP_cons, List.countP_nil]
        have := countP_pdel_le s.pending ts (fun q => decide (q.2 = w))
        by_cases hw : w' = w <;> simp [hw] <;> omega

lemma run_resPend_le : ∀ (evs : List CEvent) (s : CassieState) (w : Nat),
    resCount (run s evs) w + pendCount (run s evs) w ≤
      resCount s w + pendCount s w + ackCount evs w
  | [], s, w => by simp [run, ackCount]
  | e :: evs, s, w => by
    have h1 := step_resPend_le s e w
    have h2 := run_resPend_le evs (step s e) w
    simp only [run, List.foldl_cons] at h2 ⊢
    have h3 : ackCount (e :: evs) w = ackCount [e] w + ackCount evs w := by
      simp only [ackCount, List.countP_cons, List.countP_nil]
      omega
    omega

/-- Claim C1: for every token `T`, the correlator resolves `T`'s suspended
write at most once, independent of the order between the completion signal and
the delayed acknowledgment.  `ackCount evs w ≤ 1` states that write `w`'s
storage acknowledgment callback fires at most once (a JS promise guarantee);
under it, write `w`'s caller is fulfilled at most once in any trace. -/
theorem resolution_at_most_once (evs : List CEvent) (w : Nat)
    (h : ackCount evs w ≤ 1) : resCount (run initCassie evs) w ≤ 1 := by
  have hb := run_resPend_le evs initCassie w
  have h0 : resCount initCassie w = 0 := by simp [resCount, initCassie]
  have h1 : pendCount initCassie w = 0 := by simp [pendCount, initCassie]
  omega

/-- Witness for C1: a delayed acknowledgment followed by two completion
signals for the same token fulfills the write exactly once. -/
theorem resolution_at_most_once_witness :
    ackCount [CEvent.writeAck 5 (some "t") 10, CEvent.finishedProcessing "c t" 20,
      CEvent.finishedProcessing "c t" 30] 5 ≤ 1 ∧
    resCount (run initCassie [CEvent.writeAck 5 (some "t") 10,
      CEvent.finishedProcessing "c t" 20, CEvent.finishedProcessing "c t" 30]) 5 ≤ 1 :=
  ⟨by decide, resolution_at_most_once _ 5 (by decide)⟩

lemma plook_pdel {κ ν : Type} [DecidableEq κ] :
    ∀ (p : List (κ × ν)) (t u : κ),
      plook (pdel p u) t = if t = u then none else plook p t
  | [], t, u => by simp [pdel, plook]
  | (a, b) :: rest, t, u => by
    by_cases hau : a = u
    · subst hau
      have hdrop : pdel ((a, b) :: rest) a = pdel rest a := by simp [pdel]
      rw [hdrop, plook_pdel rest t a]
      by_cases hta : t = a
      · simp [hta]
      · have hat : ¬ a = t := fun hh => hta hh.symm
        simp [hta, plook, hat]
    · have hkeep : pdel ((a, b) :: rest) u = (a, b) :: pdel rest u := by
        simp [pdel, hau]
      rw [hkeep]
      by_cases hat : a = t
      · subst hat
        have htu : ¬ a = u := hau
        simp [plook, htu]
      · simp [plook, hat, plook_pdel rest t u]

lemma mem_of_mem_eraseFirst :
    ∀ (l : List Token) (u t : Token), t ∈ eraseFirst l u → t ∈ l
  | [], u, t, h => by simp [eraseFirst] at h
  | x :: xs, u, t, h => by
    by_cases hxu : x = u
    · simp only [eraseFirst, if_pos hxu] at h
      exact List.mem_cons_of_mem x h
    · simp only [eraseFirst, if_neg hxu] at h
      rcases List.mem_cons.1 h with h' | h'
      · exact h' ▸ List.mem_cons_self x xs
      · exact List.mem_cons_of_mem x (mem_of_mem_eraseFirst xs u t h')

lemma countP_eraseFirst_le (t : Token) :
    ∀ (l : List Token) (u : Token),
      (eraseFirst l u).countP (fun x => decide (x = t)) ≤
        l.countP (fun x => decide (x = t))
  | [], u => by simp [eraseFirst]
  | x :: xs, u => by
    by_cases hxu : x = u
    · simp only [eraseFirst, if_pos hxu, List.countP_cons]
      omega
    · simp only [eraseFirst, if_neg hxu, List.countP_cons]
      have := countP_eraseFirst_le t xs u
      omega

/-- One handler keeps the pending map and the finished list disjoint. -/
lemma step_markers_disjoint (s : CassieState) (e : CEvent)
    (h : ∀ t ∈ s.finished, plook s.pending t = none) :
    ∀ t ∈ (step s e).finished, plook (step s e).pending t = none := by
  cases e with
  | consistencyError msg =>
    simp only [step]
    split_ifs <;> exact h
  | finishedProcessing msg now =>
    simp only [step]
    cases hp : plook s.pending (extractToken msg) with
    | none =>
      intro t ht
      simp only [List.mem_append, List.mem_singleton] at ht
      rcases ht with ht | ht
      · exact h t ht
      · exact ht ▸ hp
    | some w =>
      intro t ht
      simp only at ht
      rw [plook_pdel]
      by_cases hte : t = extractToken msg
      · simp [hte]
      · simp only [if_neg hte]
        exact h t ht
  | writeIssue w value now =>
    simp only [step]
    exact h
  | writeAck w delayed now =>
    cases delayed with
    | none => simp only [step]; exact h
    | some ts =>
      simp only [step]
      by_cases hfin : ts ∈ s.finished
      · simp only [if_pos hfin]
        intro t ht
        exact h t (mem_of_mem_eraseFirst s.finished ts t ht)
      · simp only [if_neg hfin]
        intro t ht
        simp only [pinsert, plook]
        have hts : ¬ ts = t := fun he => hfin (he ▸ ht)
        rw [if_neg hts, plook_pdel]
        have hts' : ¬ t = ts := fun he => hts he.symm
        rw [if_neg hts']
        exact h t ht

lemma run_markers_disjoint :
    ∀ (evs : List CEvent) (s : CassieState),
      (∀ t ∈ s.finished, plook s.pending t = none) →
      ∀ t ∈ (run s evs).finished, plook (run s evs).pending t = none
  | [], s, h => h
  | e :: evs, s, h => by
    simp only [run, List.foldl_cons]
    exact run_markers_disjoint evs (step s e) (step_markers_disjoint s e h)

/-- Each handler adds token `t` to the finished list only on a completion
signal carrying `t`. -/
lemma step_finished_countP (s : CassieState) (e : CEvent) (t : Token) :
    (step s e).finished.countP (fun x => decide (x = t)) ≤
      s.finished.countP (fun x => decide (x = t)) + sigCount [e] t := by
  cases e with
  | consistencyError msg =>
    simp only [step]
    split_ifs <;> simp [sigCount]
  | finishedProcessing msg now =>
    simp only [step]
    cases hp : plook s.pending (extractToken msg) with
    | none =>
      simp only [List.countP_append, List.countP_cons, List.countP_nil,
        sigCount]
      by_cases he : extractToken msg = t
      · simp [he]
      · simp [he]
    | some w =>
      have hs : (0:Nat) ≤ sigCount [CEvent.finishedProcessing msg now] t :=
        Nat.zero_le _
      simp only []
      omega
  | writeIssue w value now =>
    simp only [step]
    omega
  | writeAck w delayed now =>
    cases delayed with
    | none =>
      simp only [step]
      omega
    | some ts =>
      simp only [step]
      by_cases hfin : ts ∈ s.finished
      · simp only [if_pos hfin]
        have := countP_eraseFirst_le t s.finished ts
        omega
      · simp only [if_neg hfin]
        omega

lemma run_finished_countP :
    ∀ (evs : List CEvent) (s : CassieState) (t : Token),
      (run s evs).finished.countP (fun x => decide (x = t)) ≤
        s.finished.countP (fun x => decide (x = t)) + sigCount evs t
  | [], s, t => by simp [run, sigCount]
  | e :: evs, s, t => by
    have h1 := step_finished_countP s e t
    have h2 := run_finished_countP evs (step s e) t
    simp only [run, List.foldl_cons] at h2 ⊢
    have h3 : sigCount (e :: evs) t = sigCount [e] t + sigCount evs t := by
      simp only [sigCount, List.countP_cons, List.countP_nil]
      omega
    omega

lemma nodup_of_countP_le_one :
    ∀ (l : List Token), (∀ t, l.countP (fun x => decide (x = t)) ≤ 1) → l.Nodup
  | [], _ => List.nodup_nil
  | a :: r, h => by
    rw [List.nodup_cons]
    constructor
    · have ha := h a
      simp only [List.countP_cons, decide_eq_true_eq, if_true] at ha
      have hz : r.countP (fun x => decide (x = a)) = 0 := by omega
      intro hmem
      have := (List.countP_eq_zero.1 hz) a hmem
      simp at this
    · refine nodup_of_countP_le_one r (fun t => ?_)
      have := h t
      simp only [List.countP_cons] at this
      omega

/-- Claim C2: a completion signal with no pending correlation records a
finished marker; a later delayed acknowledgment carrying that token removes
the marker, records its interval with `finish = now`, and fulfills the caller
immediately without suspending; with no prior marker a pending correlation is
created and the caller suspends (nothing is fulfilled, no interval is
recorded). -/
theorem marker_resolution_behavior (s : CassieState) (msg : String) (now : Int)
    (w : Nat) (t : Token) (now' : Int) :
    (plook s.pending (extractToken msg) = none →
      (step s (.finishedProcessing msg now)).finished =
        s.finished ++ [extractToken msg] ∧
      (step s (.finishedProcessing msg now)).pending = s.pending ∧
      (step s (.finishedProcessing msg now)).resolutions = s.resolutions) ∧
    (t ∈ s.finished →
      (step s (.writeAck w (some t) now')).finished = eraseFirst s.finished t ∧
      (step s (.writeAck w (some t) now')).intervals =
        s.intervals ++ [⟨startOf s w, now'⟩] ∧
      (step s (.writeAck w (some t) now')).resolutions = s.resolutions ++ [w] ∧
      (step s (.writeAck w (some t) now')).pending = s.pending ∧
      (step s (.writeAck w (some t) now')).delayedRequests =
        s.delayedRequests + 1) ∧
    (t ∉ s.finished →
      (step s (.writeAck w (some t) now')).pending = pinsert s.pending t w ∧
      plook (step s (.writeAck w (some t) now')).pending t = some w ∧
      (step s (.writeAck w (some t) now')).resolutions = s.resolutions ∧
      (step s (.writeAck w (some t) now')).intervals = s.intervals ∧
      (step s (.writeAck w (some t) now')).delayedRequests =
        s.delayedRequests + 1) := by
  refine ⟨fun h => ?_, fun h => ?_, fun h => ?_⟩
  · simp [step, h]
  · simp [step, if_pos h]
  · simp [step, if_neg h, pinsert, plook]

/-- State used to witness C2: one finished marker `"t"`, one unrelated pending
correlation, a recorded start for write 7. -/
def sampleState : CassieState :=
  { initCassie with finished := ["t"], pending := [("u", 3)], starts := [(7, 2)] }

/-- Witness for C2 at concrete inputs: signal token `"x"` unregistered, ack
token `"t"` marked finished, ack token `"v"` unmarked. -/
theorem marker_resolution_behavior_witness :
    (step sampleState (.finishedProcessing "c x" 5)).finished =
      sampleState.finished ++ [extractToken "c x"] ∧
    (step sampleState (.writeAck 7 (some "t") 9)).resolutions =
      sampleState.resolutions ++ [7] ∧
    (step sampleState (.writeAck 7 (some "t") 9)).intervals =
      sampleState.intervals ++ [⟨startOf sampleState 7, 9⟩] ∧
    (step sampleState (.writeAck 7 (some "v") 9)).pending =
      pinsert sampleState.pending "v" 7 ∧
    (step sampleState (.writeAck 7 (some "v") 9)).resolutions =
      sampleState.resolutions :=
  ⟨((marker_resolution_behavior sampleState "c x" 5 7 "t" 9).1 (by decide)).1,
   ((marker_resolution_behavior sampleState "c x" 5 7 "t" 9).2.1 (by decide)).2.2.1,
   ((marker_resolution_behavior sampleState "c x" 5 7 "t" 9).2.1 (by decide)).2.1,
   ((marker_resolution_behavior sampleState "c x" 5 7 "v" 9).2.2 (by decide)).1,
   ((marker_resolution_behavior sampleState "c x" 5 7 "v" 9).2.2 (by decide)).2.2.1⟩

/-- Counterexample to claim C3: delivering the same completion signal twice
(token `"a"`, never pending) leaves the token twice in the finished-marker
list, so the "never duplicated, including when the same completion signal is
delivered twice" part of the claim is false on the code. -/
theorem finished_marker_duplicate_counterexample :
    ¬ (run initCassie [CEvent.finishedProcessing "c a" 0,
         CEvent.finishedProcessing "c a" 0]).finished.Nodup := by decide

/-- Claim C3 as amended: after any trace, no token is simultaneously in the
pending map and the finished list; and provided every token's completion
signal is delivered at most once, the finished list holds no duplicates.  (A
token may be absent from both; a duplicated completion signal duplicates its
token in the finished list, per the counterexample.) -/
theorem markers_disjoint_and_nodup (evs : List CEvent)
    (h : ∀ t, sigCount evs t ≤ 1) :
    (∀ t ∈ (run initCassie evs).finished,
      plook (run initCassie evs).pending t = none) ∧
    (run initCassie evs).finished.Nodup := by
  constructor
  · exact run_markers_disjoint evs initCassie (by simp [initCassie])
  · refine nodup_of_countP_le_one _ (fun t => ?_)
    have h1 := run_finished_countP evs initCassie t
    have h2 := h t
    rw [show initCassie.finished = [] from rfl, List.countP_nil] at h1
    omega

/-- Witness for C3 as amended: a trace with one signal, one delayed
acknowledgment for another token and one write. -/
theorem markers_disjoint_and_nodup_witness :
    (∀ t ∈ (run initCassie [CEvent.finishedProcessing "c a" 0,
        CEvent.writeIssue 1 4 1, CEvent.writeAck 1 (some "b") 2]).finished,
      plook (run initCassie [CEvent.finishedProcessing "c a" 0,
        CEvent.writeIssue 1 4 1, CEvent.writeAck 1 (some "b") 2]).pending t = none) ∧
    (run initCassie [CEvent.finishedProcessing "c a" 0,
      CEvent.writeIssue 1 4 1, CEvent.writeAck 1 (some "b") 2]).finished.Nodup :=
  markers_disjoint_and_nodup _ (by
    intro t
    simp [sigCount, List.countP_cons]
    split_ifs <;> simp)

/-- Claim C10: the `seq === -2` reset clears exactly the notification count,
the four recorded streams and the four counters, leaves the pending map and
the finished list untouched, and a completion signal arriving after the reset
still resolves a correlation registered before it. -/
theorem reset_preserves_correlations (s : CassieState) (msg : String)
    (now : Int) (w : Nat) (h : plook s.pending (extractToken msg) = some w) :
    (resetOp s).pending = s.pending ∧ (resetOp s).finished = s.finished ∧
    (resetOp s).count = 0 ∧ (resetOp s).requests = [] ∧
    (resetOp s).notifications = [] ∧ (resetOp s).intervals = [] ∧
    (resetOp s).dbWrites = [] ∧ (resetOp s).delayedRequests = 0 ∧
    (resetOp s).localDetectionErrors = 0 ∧
    (resetOp s).globalDetectionErrors = 0 ∧
    (resetOp s).notPersistedErrors = 0 ∧
    (step (resetOp s) (.finishedProcessing msg now)).resolutions =
      s.resolutions ++ [w] ∧
    plook (step (resetOp s) (.finishedProcessing msg now)).pending
      (extractToken msg) = none := by
  refine ⟨rfl, rfl, rfl, rfl, rfl, rfl, rfl, rfl, rfl, rfl, rfl, ?_, ?_⟩
  · simp [step, resetOp, h]
  · simp [step, resetOp, h, plook_pdel]

/-- State used to witness C10: a pending correlation for token `"t"`, a
nonzero notification count, a nonempty write log. -/
def resetSample : CassieState :=
  { initCassie with pending := [("t", 4)], count := 3, dbWrites := [1] }

/-- Witness for C10: reset `resetSample`, then deliver the signal `"c t"`. -/
theorem reset_preserves_correlations_witness :
    (resetOp resetSample).pending = resetSample.pending ∧
    (resetOp resetSample).count = 0 ∧
    (step (resetOp resetSample) (.finishedProcessing "c t" 9)).resolutions =
      resetSample.resolutions ++ [4] := by
  refine ⟨?_, ?_, ?_⟩
  · exact (reset_preserves_correlations resetSample "c t" 9 4 (by decide)).1
  · exact (reset_preserves_correlations resetSample "c t" 9 4 (by decide)).2.2.1
  · exact (reset_preserves_correlations resetSample "c t" 9 4
      (by decide)).2.2.2.2.2.2.2.2.2.2.2.1

/-! ### Lost-value detection (C4) -/

lemma listMax_perm {l l' : List Int} (h : l.Perm l') : listMax l = listMax l' := by
  induction h with
  | nil => rfl
  | cons x h ih =>
    simp only [listMax, List.foldr_cons] at ih ⊢
    rw [ih]
  | swap x y t =>
    simp only [listMax, List.foldr_cons]
    rw [max_left_comm]
  | trans h1 h2 ih1 ih2 => exact ih1.trans ih2

lemma le_listMax_iff (k : Int) :
    ∀ (l : List Int), k ≤ listMax l ↔ k ≤ 0 ∨ ∃ x ∈ l, k ≤ x
  | [] => by simp [listMax]
  | x :: t => by
    simp only [listMax, List.foldr_cons]
    rw [le_max_iff, show List.foldr max 0 t = listMax t from rfl,
      le_listMax_iff k t]
    constructor
    · rintro (h | h | ⟨y, hy, hk⟩)
      · exact Or.inr ⟨x, by simp, h⟩
      · exact Or.inl h
      · exact Or.inr ⟨y, by simp [hy], hk⟩
    · rintro (h | ⟨y, hy, hk⟩)
      · exact Or.inr (Or.inl h)
      · rcases List.mem_cons.1 hy with rfl | hy'
        · exact Or.inl hk
        · exact Or.inr (Or.inr ⟨y, hy', hk⟩)

lemma listMax_nonneg : ∀ (l : List Int), 0 ≤ listMax l
  | [] => le_refl 0
  | x :: t => le_trans (listMax_nonneg t) (le_max_right x (listMax t))

lemma mem_intRange {lo hi k : Int} : k ∈ intRange lo hi ↔ lo ≤ k ∧ k < hi := by
  simp only [intRange, List.mem_map, List.mem_range]
  constructor
  · rintro ⟨m, hm, rfl⟩
    omega
  · rintro ⟨h1, h2⟩
    exact ⟨(k - lo).toNat, by omega, by omega⟩

/-- Characterization of the gap-filling loop on a sorted list with head `a`:
it emits exactly the values strictly above `a`, absent from the list, and not
above every list element. -/
lemma gaps_mem :
    ∀ (s : List Int), s.Pairwise (· ≤ ·) → ∀ a, s.head? = some a →
      ∀ k, (k ∈ gaps s ↔ (a < k ∧ k ∉ s ∧ ∃ m ∈ s, k ≤ m))
  | [], _, a, ha, k => by simp at ha
  | [x], _, a, ha, k => by
    simp only [List.head?_cons, Option.some.injEq] at ha
    subst ha
    rw [show gaps [x] = [] from rfl]
    simp only [List.not_mem_nil, false_iff, List.mem_singleton, not_and]
    intro h1 h2
    rintro ⟨m, hm, hk⟩
    omega
  | x :: y :: rest, hp, a, ha, k => by
    simp only [List.head?_cons, Option.some.injEq] at ha
    subst ha
    rcases List.pairwise_cons.1 hp with ⟨hx, hp'⟩
    have hy := gaps_mem (y :: rest) hp' y rfl k
    have hxy : x ≤ y := hx y (by simp)
    have hyall : ∀ m ∈ rest, y ≤ m := (List.pairwise_cons.1 hp').1
    rw [show gaps (x :: y :: rest) = intRange (x + 1) y ++ gaps (y :: rest)
      from rfl]
    constructor
    · intro hk
      rcases List.mem_append.1 hk with hk | hk
      · rw [mem_intRange] at hk
        refine ⟨by omega, ?_, ⟨y, by simp, by omega⟩⟩
        simp only [List.mem_cons, not_or]
        refine ⟨by omega, by omega, fun hkr => ?_⟩
        have := hyall k hkr
        omega
      · rcases hy.1 hk with ⟨h1, h2, m, hm, h3⟩
        simp only [List.mem_cons, not_or] at h2
        refine ⟨by omega, ?_, ⟨m, List.mem_cons_of_mem x hm, h3⟩⟩
        simp only [List.mem_cons, not_or]
        exact ⟨by omega, h2.1, h2.2⟩
    · rintro ⟨h1, h2, m, hm, h3⟩
      simp only [List.mem_cons, not_or] at h2
      by_cases hkb : k < y
      · exact List.mem_append_left _ (mem_intRange.2 ⟨by omega, hkb⟩)
      · refine List.mem_append_right _ (hy.2 ⟨?_, ?_, ?_⟩)
        · have : ¬ k = y := h2.2.1
          omega
        · simp only [List.mem_cons, not_or]
          exact ⟨h2.2.1, h2.2.2⟩
        · rcases List.mem_cons.1 hm with rfl | hm'
          · exact absurd h3 (by omega)
          · exact ⟨m, hm', h3⟩

/-- Counterexample to claim C4: for the write log `[2]` (values drawn from
`[0, 3)`, largest submitted value `2`), the code flags only `0`, not the
missing value `1`, so "flags exactly the integers of `[0, N)` missing from
the log" fails. -/
theorem lostUpdates_counterexample :
    ¬ ((1:Int) ∈ lostUpdates [2] ↔
        (0 ≤ (1:Int) ∧ 1 ≤ listMax [2] ∧ (1:Int) ∉ ([2] : List Int))) := by
  decide

/-- Claim C4 as amended: whenever the write log consists of nonnegative
values and its least value is at most `1`, the flagged values are exactly the
integers of `[0, N)` missing from the log (`N - 1` the largest logged value).
Below a least value of `2` or more the code flags only `0`, per the
counterexample. -/
theorem lostUpdates_flags_missing (l : List Int)
    (hnn : ∀ x ∈ l, 0 ≤ x) (hmin : ∃ x ∈ l, x ≤ 1) (k : Int) :
    k ∈ lostUpdates l ↔ (0 ≤ k ∧ k ≤ listMax l ∧ k ∉ l) := by
  obtain ⟨x0, hx0l, hx0⟩ := hmin
  have hperm : List.Perm (sortedWrites l) l := List.perm_insertionSort (· ≤ ·) l
  have hsort : (sortedWrites l).Pairwise (· ≤ ·) :=
    List.sorted_insertionSort (· ≤ ·) l
  have hmem : ∀ y : Int, y ∈ sortedWrites l ↔ y ∈ l := fun y => hperm.mem_iff
  have hx0s : x0 ∈ sortedWrites l := (hmem x0).2 hx0l
  obtain ⟨a, t, hst⟩ : ∃ a t, sortedWrites l = a :: t := by
    cases hcs : sortedWrites l with
    | nil => rw [hcs] at hx0s; simp at hx0s
    | cons a t => exact ⟨a, t, rfl⟩
  have hhead : (sortedWrites l).head? = some a := by rw [hst]; rfl
  have hamem : a ∈ sortedWrites l := by rw [hst]; simp
  have hmin_a : ∀ y ∈ sortedWrites l, a ≤ y := by
    rw [hst]
    rcases List.pairwise_cons.1 (hst ▸ hsort) with ⟨h1, _⟩
    intro y hy
    rcases List.mem_cons.1 hy with rfl | hy'
    · exact le_refl y
    · exact h1 y hy'
  have ha0 : 0 ≤ a := hnn a ((hmem a).1 hamem)
  have ha1 : a ≤ 1 := le_trans (hmin_a x0 hx0s) hx0
  have hmax : listMax l = listMax (sortedWrites l) := (listMax_perm hperm).symm
  have hG := gaps_mem (sortedWrites l) hsort a hhead k
  rw [lostUpdates]
  have haa : a = 0 ∨ a = 1 := by omega
  rcases haa with rfl | rfl
  · rw [if_neg (by rw [hhead]; simp)]
    rw [List.nil_append, hG]
    constructor
    · rintro ⟨h1, h2, m, hm, h3⟩
      refine ⟨by omega, ?_, fun hkl => h2 ((hmem k).2 hkl)⟩
      rw [hmax, le_listMax_iff]
      exact Or.inr ⟨m, hm, h3⟩
    · rintro ⟨h1, h2, h3⟩
      have h0l : (0:Int) ∈ l := (hmem 0).1 hamem
      have hk0 : ¬ k = 0 := fun he => h3 (he ▸ h0l)
      rw [hmax, le_listMax_iff] at h2
      rcases h2 with h2 | ⟨x, hx, hkx⟩
      · omega
      · exact ⟨by omega, fun hks => h3 ((hmem k).1 hks),
          ⟨x, hx, hkx⟩⟩
  · rw [if_pos (by rw [hhead]; simp)]
    have hsplit : k ∈ [(0:Int)] ++ gaps (sortedWrites l) ↔
        k = 0 ∨ k ∈ gaps (sortedWrites l) := by
      simp [List.mem_append]
    rw [hsplit, hG]
    have h1l : (1:Int) ∈ l := (hmem 1).1 hamem
    have h0nl : (0:Int) ∉ l := by
      intro h0l
      have := hmin_a 0 ((hmem 0).2 h0l)
      omega
    constructor
    · rintro (rfl | ⟨h1, h2, m, hm, h3⟩)
      · exact ⟨le_refl 0, hmax ▸ listMax_nonneg (sortedWrites l), h0nl⟩
      · refine ⟨by omega, ?_, fun hkl => h2 ((hmem k).2 hkl)⟩
        rw [hmax, le_listMax_iff]
        exact Or.inr ⟨m, hm, h3⟩
    · rintro ⟨h1, h2, h3⟩
      by_cases hk0 : k = 0
      · exact Or.inl hk0
      · have hk1 : ¬ k = 1 := fun he => h3 (he ▸ h1l)
        rw [hmax, le_listMax_iff] at h2
        rcases h2 with h2 | ⟨x, hx, hkx⟩
        · omega
        · exact Or.inr ⟨by omega, fun hks => h3 ((hmem k).1 hks),
            ⟨x, hx, hkx⟩⟩

/-- Witness for C4 as amended, at the spec's own example: log `[0,1,3,4]`
flags `2`. -/
theorem lostUpdates_flags_missing_witness :
    (∀ x ∈ ([0,1,3,4] : List Int), 0 ≤ x) ∧
    (∃ x ∈ ([0,1,3,4] : List Int), x ≤ 1) ∧
    ((2:Int) ∈ lostUpdates [0,1,3,4] ↔
      (0 ≤ (2:Int) ∧ 2 ≤ listMax [0,1,3,4] ∧ (2:Int) ∉ ([0,1,3,4] : List Int))) :=
  ⟨by decide, by decide,
    lostUpdates_flags_missing [0,1,3,4] (by decide) (by decide) 2⟩

/-! ### Overlap counting (C5) -/

lemma overlappingGo_le_specPairGo :
    ∀ (rest seen : List WriteInterval),
      overlappingGo seen rest ≤ specPairGo seen rest
  | [], _ => le_refl 0
  | a :: rest, seen => by
    have ih := overlappingGo_le_specPairGo rest (seen ++ [a])
    simp only [overlappingGo, specPairGo]
    by_cases h : seen.any (fun b => decide (b.finish > a.finish))
    · have h1 : 0 < seen.countP (fun b => decide (b.finish > a.finish)) := by
        rcases List.any_eq_true.1 h with ⟨b, hb, hbf⟩
        exact List.countP_pos_iff.2 ⟨b, hb, hbf⟩
      rw [if_pos h]
      omega
    · rw [if_neg h]
      omega

/-- The loop-with-break counts exactly the positions whose strict prefix (plus
the already-walked `seen` intervals) contains a later-finishing interval. -/
lemma overlappingGo_spec :
    ∀ (rest seen : List WriteInterval),
      overlappingGo seen rest =
        (List.range rest.length).countP (fun i =>
          (seen ++ rest.take i).any
            (fun b => decide (b.finish > finishAt rest i)))
  | [], seen => by simp [overlappingGo]
  | a :: rest, seen => by
    have ih := overlappingGo_spec rest (seen ++ [a])
    simp only [overlappingGo, List.length_cons]
    rw [List.range_succ_eq_map, List.countP_cons, List.countP_map]
    have h0 : (seen ++ (a :: rest).take 0).any
        (fun b => decide (b.finish > finishAt (a :: rest) 0)) =
        seen.any (fun b => decide (b.finish > a.finish)) := by
      simp [finishAt]
    have hshift :
        ((fun i => (seen ++ (a :: rest).take i).any
            (fun b => decide (b.finish > finishAt (a :: rest) i))) ∘ Nat.succ) =
        (fun i => ((seen ++ [a]) ++ rest.take i).any
            (fun b => decide (b.finish > finishAt rest i))) := by
      funext i
      simp only [Function.comp_apply, List.take_succ_cons, finishAt,
        List.get?_cons_succ]
      rw [show seen ++ a :: rest.take i = (seen ++ [a]) ++ rest.take i by simp]
    rw [hshift, h0, ← ih]
    by_cases h : seen.any (fun b => decide (b.finish > a.finish))
    · rw [if_pos h]
      omega
    · rw [if_neg h]
      omega

/-- Counterexample to claim C5: three intervals where the third is preceded by
two later-finishing intervals.  The code's `break` counts the third interval
once, so the report says 2 while the claimed pairwise count is 3. -/
theorem overlapping_pairwise_counterexample :
    overlapping [⟨0,100⟩, ⟨1,50⟩, ⟨2,10⟩] ≠
      specPairCount [⟨0,100⟩, ⟨1,50⟩, ⟨2,10⟩] := by decide

/-- Claim C5 as amended: the reported overlap count is the number of
intervals, in start-sorted order, preceded by at least one interval with a
strictly greater finish — each interval counted at most once (`break`), hence
at most the claimed pairwise count; on the spec's A, B, C example both counts
equal 1. -/
theorem overlapping_counts_flagged_intervals :
    (∀ l : List WriteInterval,
      overlapping l =
        (List.range (sortByStart l).length).countP (fun i =>
          ((sortByStart l).take i).any
            (fun b => decide (b.finish > finishAt (sortByStart l) i)))) ∧
    (∀ l : List WriteInterval, overlapping l ≤ specPairCount (sortByStart l)) ∧
    overlapping [⟨0,10⟩, ⟨5,20⟩, ⟨15,18⟩] = 1 ∧
    specPairCount [⟨0,10⟩, ⟨5,20⟩, ⟨15,18⟩] = 1 := by
  refine ⟨fun l => ?_, fun l => ?_, by decide, by decide⟩
  · rw [overlapping, overlappingGo_spec]
    simp
  · exact overlappingGo_le_specPairGo (sortByStart l) []

/-! ### Per-request classification (C6) -/

lemma npAt_zero (lostU : List Int) (reqs : List TimedValue) :
    npAt lostU reqs 0 = 0 := by
  simp [npAt]

lemma npAt_succ_lost (lostU : List Int) (q : TimedValue)
    (rest : List TimedValue) (i : Nat) (hl : q.value ∈ lostU) :
    npAt lostU (q :: rest) (i + 1) = npAt lostU rest i := by
  simp only [npAt, List.take_succ_cons, List.countP_cons]
  simp [hl]

lemma npAt_succ_kept (lostU : List Int) (q : TimedValue)
    (rest : List TimedValue) (i : Nat) (hl : q.value ∉ lostU) :
    npAt lostU (q :: rest) (i + 1) = npAt lostU rest i + 1 := by
  simp only [npAt, List.take_succ_cons, List.countP_cons]
  simp [hl]

lemma except_map_eq_ok {α β : Type} {f : α → β} {x : Except JsError α}
    {b : β} (h : Except.map f x = .ok b) : ∃ a, x = .ok a ∧ b = f a := by
  cases x with
  | error e => simp [Except.map] at h
  | ok a =>
    simp [Except.map] at h
    exact ⟨a, rfl, h.symm⟩

/-- Value-level characterization of the classification loop when it runs to
completion: the class of the request at index `i` is computed from the
notification and write-log entries at cursor `np + npAt lostU reqs i` — the
notification cursor advances exactly on non-lost requests. -/
lemma classifyGo_ok_get? (notifs : List TimedValue) (dbw lostU : List Int) :
    ∀ (reqs : List TimedValue) (np i : Nat) (r : TimedValue)
      (cls : List ReqClass),
      reqs.get? i = some r →
      classifyGo notifs dbw lostU reqs np = .ok cls →
      cls.get? i = some (
        if r.value ∈ lostU then ReqClass.lostReq
        else match notifs.get? (np + npAt lostU reqs i) with
          | some n =>
            if r.value ≠ n.value then
              (if dbw.get? (np + npAt lostU reqs i) = some r.value then
                ReqClass.staleDbRead
              else ReqClass.reordered)
            else ReqClass.correct
          | none => ReqClass.correct)
  | [], np, i, r, cls, h, hok => by simp at h
  | q :: rest, np, 0, r, cls, h, hok => by
    simp only [List.get?_cons_zero, Option.some.injEq] at h
    subst h
    rw [npAt_zero, Nat.add_zero]
    by_cases hl : q.value ∈ lostU
    · cases hn : notifs.get? np with
      | none =>
        simp only [classifyGo, if_pos hl, hn] at hok
        simp at hok
      | some n0 =>
        simp only [classifyGo, if_pos hl, hn] at hok
        obtain ⟨cls', hrec, rfl⟩ := except_map_eq_ok hok
        simp [hl]
    · cases hn : notifs.get? np with
      | some n =>
        by_cases hv : q.value ≠ n.value
        · simp only [classifyGo, if_neg hl, hn, if_pos hv] at hok
          obtain ⟨cls', hrec, rfl⟩ := except_map_eq_ok hok
          simp [hl, hn, hv]
        · simp only [classifyGo, if_neg hl, hn, if_neg hv] at hok
          obtain ⟨cls', hrec, rfl⟩ := except_map_eq_ok hok
          simp [hl, hn, hv]
      | none =>
        simp only [classifyGo, if_neg hl, hn] at hok
        obtain ⟨cls', hrec, rfl⟩ := except_map_eq_ok hok
        simp [hl, hn]
  | q :: rest, np, i + 1, r, cls, h, hok => by
    simp only [List.get?_cons_succ] at h
    by_cases hl : q.value ∈ lostU
    · cases hn : notifs.get? np with
      | none =>
        simp only [classifyGo, if_pos hl, hn] at hok
        simp at hok
      | some n0 =>
        simp only [classifyGo, if_pos hl, hn] at hok
        obtain ⟨cls', hrec, rfl⟩ := except_map_eq_ok hok
        rw [npAt_succ_lost lostU q rest i hl]
        simp only [List.get?_cons_succ]
        exact classifyGo_ok_get? notifs dbw lostU rest np i r cls' h hrec
    · rw [npAt_succ_kept lostU q rest i hl,
        show np + (npAt lostU rest i + 1) = (np + 1) + npAt lostU rest i
          by omega]
      cases hn : notifs.get? np with
      | some n =>
        by_cases hv : q.value ≠ n.value
        · simp only [classifyGo, if_neg hl, hn, if_pos hv] at hok
          obtain ⟨cls', hrec, rfl⟩ := except_map_eq_ok hok
          simp only [List.get?_cons_succ]
          exact classifyGo_ok_get? notifs dbw lostU rest (np + 1) i r cls' h hrec
        · simp only [classifyGo, if_neg hl, hn, if_neg hv] at hok
          obtain ⟨cls', hrec, rfl⟩ := except_map_eq_ok hok
          simp only [List.get?_cons_succ]
          exact classifyGo_ok_get? notifs dbw lostU rest (np + 1) i r cls' h hrec
      | none =>
        simp only [classifyGo, if_neg hl, hn] at hok
        obtain ⟨cls', hrec, rfl⟩ := except_map_eq_ok hok
        simp only [List.get?_cons_succ]
        exact classifyGo_ok_get? notifs dbw lostU rest (np + 1) i r cls' h hrec

/-- A request flagged lost that is reached with the notification cursor past
the end of the notifications list makes the loop throw (the report line
dereferences the undefined `notification`), so the whole classification
errors out. -/
lemma classifyGo_crash (notifs : List TimedValue) (dbw lostU : List Int) :
    ∀ (reqs : List TimedValue) (np i : Nat) (r : TimedValue),
      reqs.get? i = some r → r.value ∈ lostU →
      notifs.get? (np + npAt lostU reqs i) = none →
      classifyGo notifs dbw lostU reqs np = .error .typeError
  | [], np, i, r, h, _, _ => by simp at h
  | q :: rest, np, 0, r, h, hl, hn => by
    simp only [List.get?_cons_zero, Option.some.injEq] at h
    subst h
    rw [npAt_zero, Nat.add_zero] at hn
    simp only [classifyGo, if_pos hl, hn]
  | q :: rest, np, i + 1, r, h, hl, hn => by
    simp only [List.get?_cons_succ] at h
    by_cases hql : q.value ∈ lostU
    · rw [npAt_succ_lost lostU q rest i hql] at hn
      cases hn0 : notifs.get? np with
      | none => simp only [classifyGo, if_pos hql, hn0]
      | some n0 =>
        have ih := classifyGo_crash notifs dbw lostU rest np i r h hl hn
        simp only [classifyGo, if_pos hql, hn0, ih, Except.map]
    · rw [npAt_succ_kept lostU q rest i hql,
        show np + (npAt lostU rest i + 1) = (np + 1) + npAt lostU rest i
          by omega] at hn
      have ih := classifyGo_crash notifs dbw lostU rest (np + 1) i r h hl hn
      cases hn0 : notifs.get? np with
      | none => simp only [classifyGo, if_neg hql, hn0, ih, Except.map]
      | some n0 =>
        by_cases hv : q.value ≠ n0.value
        · simp only [classifyGo, if_neg hql, hn0, if_pos hv, ih, Except.map]
        · simp only [classifyGo, if_neg hql, hn0, if_neg hv, ih, Except.map]

/-- Counterexample to claim C6: a single request whose value is flagged lost,
with the notification stream already exhausted.  The loop does not mark it
"lost" and advance the request cursor — it throws a `TypeError` at the
unguarded `notification.time` dereference of the lost branch and classifies
nothing. -/
theorem classification_lost_crash_counterexample :
    classify [⟨5, 0⟩] [] [] [5] = Except.error JsError.typeError := rfl

/-- Claim C6 as amended: when the loop runs to completion, a request flagged
lost is classified "lost" with only the request cursor advancing, and a
non-lost request whose value differs from the current notification's value is
classified stale-database-read exactly when its value equals the write-log
entry at the notification cursor, reordered-by-gateway otherwise, both
cursors advancing (the cursor at index `i` being `npAt`, the count of earlier
non-lost requests); but a lost request reached with the notification cursor
at or past the end of the notifications list throws a `TypeError` instead of
being classified. -/
theorem classification_rule (reqs notifs : List TimedValue)
    (dbw lostU : List Int) :
    (∀ i r cls, reqs.get? i = some r → r.value ∈ lostU →
      classify reqs notifs dbw lostU = .ok cls →
      cls.get? i = some ReqClass.lostReq) ∧
    (∀ i r, reqs.get? i = some r → r.value ∈ lostU →
      notifs.get? (npAt lostU reqs i) = none →
      classify reqs notifs dbw lostU = .error .typeError) ∧
    (∀ i r n cls, reqs.get? i = some r → r.value ∉ lostU →
      notifs.get? (npAt lostU reqs i) = some n → r.value ≠ n.value →
      classify reqs notifs dbw lostU = .ok cls →
      cls.get? i = some (if dbw.get? (npAt lostU reqs i) = some r.value then
        ReqClass.staleDbRead else ReqClass.reordered)) := by
  refine ⟨?_, ?_, ?_⟩
  · intro i r cls h hl hok
    have := classifyGo_ok_get? notifs dbw lostU reqs 0 i r cls h hok
    simpa [hl] using this
  · intro i r h hl hn
    exact classifyGo_crash notifs dbw lostU reqs 0 i r h hl (by simpa using hn)
  · intro i r n cls h hl hn hv hok
    have := classifyGo_ok_get? notifs dbw lostU reqs 0 i r cls h hok
    rw [Nat.zero_add] at this
    have hn' : notifs[npAt lostU reqs i]? = some n := by
      simpa using hn
    simpa [hl, hn', hv] using this

/-- Witness for C6 as amended: a lost request with the notifications
exhausted crashes; with a notification available, request 0 (value 5) is
classified lost and request 1 (value 1, differing from notification value 2,
matching the write log at the cursor) is a stale database read. -/
theorem classification_rule_witness :
    classify [⟨5, 0⟩] [] [] [5] = Except.error JsError.typeError ∧
    ([ReqClass.lostReq, ReqClass.staleDbRead] : List ReqClass).get? 0 =
      some ReqClass.lostReq ∧
    ([ReqClass.lostReq, ReqClass.staleDbRead] : List ReqClass).get? 1 =
      some ReqClass.staleDbRead := by
  refine ⟨?_, ?_, ?_⟩
  · exact (classification_rule [⟨5, 0⟩] [] [] [5]).2.1 0 ⟨5, 0⟩
      (by decide) (by decide) (by decide)
  · exact (classification_rule [⟨5, 0⟩, ⟨1, 2⟩] [⟨2, 9⟩] [1] [5]).1 0 ⟨5, 0⟩
      [ReqClass.lostReq, ReqClass.staleDbRead] (by decide) (by decide) rfl
  · exact (classification_rule [⟨5, 0⟩, ⟨1, 2⟩] [⟨2, 9⟩] [1] [5]).2.2 1
      ⟨1, 2⟩ ⟨2, 9⟩ [ReqClass.lostReq, ReqClass.staleDbRead] (by decide)
      (by decide) (by decide) (by decide) rfl

/-! ### Timing averages (C7) -/

lemma deltas_length : ∀ l : List Int, (deltas l).length = l.length - 1
  | [] => rfl
  | [_] => rfl
  | a :: b :: rest => by
    rw [show deltas (a :: b :: rest) = (b - a) :: deltas (b :: rest) from rfl]
    have := deltas_length (b :: rest)
    simp only [List.length_cons] at this ⊢
    omega

lemma jsRound_single (t : Int) : jsRound t 1 = t := by
  rw [jsRound, Int.fdiv_eq_ediv _ (by norm_num)]
  omega

/-- Counterexample to claim C7: the per-request processing-latency average of
the single sample `7` is `7`, not `0`, so "defined as 0 whenever there are
fewer than 2 samples" fails for the third average. -/
theorem avgProcessingTime_single_counterexample :
    ¬ (avgProcessingTime [7] = 0) := by decide

/-- Claim C7 as amended: the inter-notification and inter-write averages are
the rounded arithmetic mean of the consecutive-pair deltas and are `0` for
fewer than two samples (notification times `[100,150,180]` give `40`); the
processing-latency average is the rounded arithmetic mean of the recorded
latencies and is `0` only for an empty sample set — a single latency sample
yields that latency itself. -/
theorem averages_rounded_means :
    avgUpdate [⟨0, 100⟩, ⟨0, 150⟩, ⟨0, 180⟩] = 40 ∧
    avgUpdate [] = 0 ∧ (∀ v t : Int, avgUpdate [⟨v, t⟩] = 0) ∧
    avgWrite [] = 0 ∧ (∀ st fi : Int, avgWrite [⟨st, fi⟩] = 0) ∧
    avgProcessingTime [] = 0 ∧
    (∀ t : Int, avgProcessingTime [t] = t) ∧
    (∀ l : List Int, l ≠ [] →
      avgProcessingTime l = jsRound l.sum l.length) ∧
    (∀ ts : List TimedValue, 2 ≤ ts.length →
      avgUpdate ts = jsRound (deltas (ts.map (fun n => n.time))).sum
        (deltas (ts.map (fun n => n.time))).length) ∧
    (∀ iv : List WriteInterval, 2 ≤ iv.length →
      avgWrite iv = jsRound (deltas (iv.map (fun i => i.start))).sum
        (deltas (iv.map (fun i => i.start))).length) := by
  refine ⟨by decide, by decide, ?_, by decide, ?_, by decide, ?_, ?_, ?_, ?_⟩
  · intro v t
    rfl
  · intro st fi
    rfl
  · intro t
    rw [show avgProcessingTime [t] = jsRound ([t] : List Int).sum 1 from rfl]
    simpa using jsRound_single t
  · intro l hl
    rw [avgProcessingTime, if_pos (by simpa [List.length_pos] using hl)]
  · intro ts hts
    rw [avgUpdate]
    have hlen : (deltas (ts.map (fun n => n.time))).length =
        ts.length - 1 := by
      rw [deltas_length, List.length_map]
    rw [if_pos (by omega)]
  · intro iv hiv
    rw [avgWrite]
    have hlen : (deltas (iv.map (fun i => i.start))).length =
        iv.length - 1 := by
      rw [deltas_length, List.length_map]
    rw [if_pos (by omega)]

/-- Witness for C7 as amended, at concrete inputs for the conjuncts with
hypotheses. -/
theorem averages_rounded_means_witness :
    avgProcessingTime [3, 6] = jsRound ([3, 6] : List Int).sum 2 ∧
    avgUpdate [⟨0, 100⟩, ⟨0, 150⟩, ⟨0, 180⟩] =
      jsRound (deltas (([⟨0, 100⟩, ⟨0, 150⟩, ⟨0, 180⟩] :
        List TimedValue).map (fun n => n.time))).sum
        (deltas (([⟨0, 100⟩, ⟨0, 150⟩, ⟨0, 180⟩] :
        List TimedValue).map (fun n => n.time))).length ∧
    avgWrite [⟨1, 2⟩, ⟨5, 9⟩] =
      jsRound (deltas (([⟨1, 2⟩, ⟨5, 9⟩] :
        List WriteInterval).map (fun i => i.start))).sum
        (deltas (([⟨1, 2⟩, ⟨5, 9⟩] :
        List WriteInterval).map (fun i => i.start))).length := by
  refine ⟨?_, ?_, ?_⟩
  · have h := averages_rounded_means.2.2.2.2.2.2.2.1 [3, 6] (by decide)
    simpa using h
  · have h := averages_rounded_means.2.2.2.2.2.2.2.2.1
      [⟨0, 100⟩, ⟨0, 150⟩, ⟨0, 180⟩] (by decide)
    simpa using h
  · have h := averages_rounded_means.2.2.2.2.2.2.2.2.2
      [⟨1, 2⟩, ⟨5, 9⟩] (by decide)
    simpa using h

/-! ### Storage failure handling (C8) -/

/-- Claim C8 is half right and half wrong on the code: `execute` does log and
swallow a storage failure, returning `undefined`; but `read` then dereferences
`result.rows` of that `undefined` result and throws a `TypeError`, and
`write`'s acknowledgment callback likewise dereferences `result.info` — the
callers do not tolerate the absent result. -/
theorem storage_failure_behavior (e propertyName : String) :
    executeModel (.error e) = none ∧
    readModel propertyName (.error e) = .error .typeError ∧
    writeAckBranch (executeModel (.error e)) = .error .typeError :=
  ⟨rfl, rfl, rfl⟩

/-! ### Teardown idempotence (C9) -/

lemma foldl_thingCleanupRun_fields (c : Nat) :
    ∀ (l : List Nat) (acc : HubState),
      ((l.foldl (fun a tid => thingCleanupRun c tid a) acc).thingAddedListeners
          = acc.thingAddedListeners) ∧
      ((l.foldl (fun a tid => thingCleanupRun c tid a) acc).propertyChangedListeners
          = acc.propertyChangedListeners) ∧
      ((l.foldl (fun a tid => thingCleanupRun c tid a) acc).actionStatusListeners
          = acc.actionStatusListeners) ∧
      ((l.foldl (fun a tid => thingCleanupRun c tid a) acc).thingCleanups
          = acc.thingCleanups) ∧
      ((l.foldl (fun a tid => thingCleanupRun c tid a) acc).heartbeatActive
          = acc.heartbeatActive) ∧
      ((l.foldl (fun a tid => thingCleanupRun c tid a) acc).eventSubs
          = l.foldl (fun L tid => L.erase (tid, c)) acc.eventSubs) ∧
      ((l.foldl (fun a tid => thingCleanupRun c tid a) acc).connectedSubs
          = l.foldl (fun L tid => L.erase (tid, c)) acc.connectedSubs) ∧
      ((l.foldl (fun a tid => thingCleanupRun c tid a) acc).removedSubs
          = l.foldl (fun L tid => L.erase (tid, c)) acc.removedSubs) ∧
      ((l.foldl (fun a tid => thingCleanupRun c tid a) acc).modifiedSubs
          = l.foldl (fun L tid => L.erase (tid, c)) acc.modifiedSubs)
  | [], acc => by simp
  | tid :: l, acc => by
    simp only [List.foldl_cons]
    have ih := foldl_thingCleanupRun_fields c l (thingCleanupRun c tid acc)
    simpa [thingCleanupRun] using ih

lemma cleanup_fields (c : Nat) (s : HubState) :
    (cleanup c s).thingAddedListeners = s.thingAddedListeners.erase c ∧
    (cleanup c s).propertyChangedListeners =
      s.propertyChangedListeners.erase c ∧
    (cleanup c s).actionStatusListeners = s.actionStatusListeners.erase c ∧
    (cleanup c s).thingCleanups = [] ∧
    (cleanup c s).heartbeatActive = false ∧
    (cleanup c s).eventSubs =
      s.thingCleanups.foldl (fun L tid => L.erase (tid, c)) s.eventSubs ∧
    (cleanup c s).connectedSubs =
      s.thingCleanups.foldl (fun L tid => L.erase (tid, c)) s.connectedSubs ∧
    (cleanup c s).removedSubs =
      s.thingCleanups.foldl (fun L tid => L.erase (tid, c)) s.removedSubs ∧
    (cleanup c s).modifiedSubs =
      s.thingCleanups.foldl (fun L tid => L.erase (tid, c)) s.modifiedSubs := by
  have h := foldl_thingCleanupRun_fields c s.thingCleanups
    { s with
      thingAddedListeners := s.thingAddedListeners.erase c,
      propertyChangedListeners := s.propertyChangedListeners.erase c,
      actionStatusListeners := s.actionStatusListeners.erase c }
  simp only [cleanup]
  exact ⟨h.1, h.2.1, h.2.2.1, trivial, trivial, h.2.2.2.2.2.1,
    h.2.2.2.2.2.2.1, h.2.2.2.2.2.2.2.1, h.2.2.2.2.2.2.2.2⟩

lemma count_foldl_erase_le (c : Nat) (x : Nat × Nat) :
    ∀ (l : List Nat) (L : List (Nat × Nat)),
      (l.foldl (fun acc tid => acc.erase (tid, c)) L).count x ≤ L.count x
  | [], _ => le_refl _
  | tid :: l, L => by
    simp only [List.foldl_cons]
    refine le_trans (count_foldl_erase_le c x l (L.erase (tid, c))) ?_
    rw [List.count_erase]
    omega

lemma count_foldl_erase_ge (c tid0 : Nat) :
    ∀ (l : List Nat) (L : List (Nat × Nat)), l.Nodup →
      L.count (tid0, c) ≤
        (l.foldl (fun acc tid => acc.erase (tid, c)) L).count (tid0, c) +
          (if tid0 ∈ l then 1 else 0)
  | [], L, _ => by simp
  | tid :: l, L, hnd => by
    rcases List.nodup_cons.1 hnd with ⟨htid, hnd'⟩
    simp only [List.foldl_cons]
    have ih := count_foldl_erase_ge c tid0 l (L.erase (tid, c)) hnd'
    by_cases he : tid0 = tid
    · subst he
      rw [if_pos (by simp)]
      have hl0 : (if tid0 ∈ l then 1 else 0) = 0 := by simp [htid]
      rw [hl0, Nat.add_zero] at ih
      have h1 : L.count (tid0, c) ≤ (L.erase (tid0, c)).count (tid0, c) + 1 := by
        rw [List.count_erase]
        simp
        omega
      omega
    · have h1 : (L.erase (tid, c)).count (tid0, c) = L.count (tid0, c) := by
        rw [List.count_erase]
        have hne : ¬ ((tid, c) == (tid0, c)) = true := by
          simp [he, Ne.symm he]
        simp [hne]
      rw [h1] at ih
      have h2 : (if tid0 ∈ tid :: l then 1 else 0) =
          (if tid0 ∈ l then 1 else 0) := by
        simp [List.mem_cons, he]
      rw [h2]
      exact ih

/-- Claim C9: invoking `cleanup` twice unregisters each global listener, each
per-thing callback and the heartbeat timer at most once; the second invocation
changes nothing (and, being a total function, raises no error).  The count
hypotheses say connection `c` registered each global listener at most once and
the `thingCleanups` object has one entry per thing — both enforced by
`websocketHandler`, which registers once per connection and keys the cleanup
map by thing id. -/
theorem cleanup_idempotent (c : Nat) (s : HubState)
    (h1 : s.thingAddedListeners.count c ≤ 1)
    (h2 : s.propertyChangedListeners.count c ≤ 1)
    (h3 : s.actionStatusListeners.count c ≤ 1)
    (h4 : s.thingCleanups.Nodup) :
    cleanup c (cleanup c s) = cleanup c s ∧
    c ∉ (cleanup c s).thingAddedListeners ∧
    c ∉ (cleanup c s).propertyChangedListeners ∧
    c ∉ (cleanup c s).actionStatusListeners ∧
    (cleanup c s).thingCleanups = [] ∧
    (cleanup c s).heartbeatActive = false ∧
    (∀ tid,
      (cleanup c s).eventSubs.count (tid, c) ≤ s.eventSubs.count (tid, c) ∧
      s.eventSubs.count (tid, c) ≤ (cleanup c s).eventSubs.count (tid, c) + 1) := by
  obtain ⟨f1, f2, f3, f4, f5, f6, f7, f8, f9⟩ := cleanup_fields c s
  have hnm1 : c ∉ (cleanup c s).thingAddedListeners := by
    rw [f1, ← List.count_eq_zero, List.count_erase_self]
    omega
  have hnm2 : c ∉ (cleanup c s).propertyChangedListeners := by
    rw [f2, ← List.count_eq_zero, List.count_erase_self]
    omega
  have hnm3 : c ∉ (cleanup c s).actionStatusListeners := by
    rw [f3, ← List.count_eq_zero, List.count_erase_self]
    omega
  refine ⟨?_, hnm1, hnm2, hnm3, f4, f5, fun tid => ?_⟩
  · obtain ⟨g1, g2, g3, g4, g5, g6, g7, g8, g9⟩ :=
      cleanup_fields c (cleanup c s)
    ext1
    · rw [g1, List.erase_of_not_mem hnm1]
    · rw [g2, List.erase_of_not_mem hnm2]
    · rw [g3, List.erase_of_not_mem hnm3]
    · rw [g6, f4, List.foldl_nil]
    · rw [g7, f4, List.foldl_nil]
    · rw [g8, f4, List.foldl_nil]
    · rw [g9, f4, List.foldl_nil]
    · rw [g4, f4]
    · rw [g5, f5]
  · constructor
    · rw [f6]
      exact count_foldl_erase_le c (tid, c) s.thingCleanups s.eventSubs
    · rw [f6]
      have := count_foldl_erase_ge c tid s.thingCleanups s.eventSubs h4
      by_cases hm : tid ∈ s.thingCleanups
      · rw [if_pos hm] at this
        omega
      · rw [if_neg hm] at this
        omega

/-- Witness for C9 at a concrete state: one registration of connection 1
everywhere, two things in scope. -/
theorem cleanup_idempotent_witness :
    cleanup 1 (cleanup 1
      { thingAddedListeners := [1], propertyChangedListeners := [1, 2],
        actionStatusListeners := [2, 1], eventSubs := [(10, 1), (11, 1)],
        connectedSubs := [(10, 1), (11, 1)], removedSubs := [(10, 1), (11, 1)],
        modifiedSubs := [(10, 1), (11, 1)], thingCleanups := [10, 11],
        heartbeatActive := true }) =
    cleanup 1
      { thingAddedListeners := [1], propertyChangedListeners := [1, 2],
        actionStatusListeners := [2, 1], eventSubs := [(10, 1), (11, 1)],
        connectedSubs := [(10, 1), (11, 1)], removedSubs := [(10, 1), (11, 1)],
        modifiedSubs := [(10, 1), (11, 1)], thingCleanups := [10, 11],
        heartbeatActive := true } ∧
    ¬ (1 ∈ (cleanup 1
      { thingAddedListeners := [1], propertyChangedListeners := [1, 2],
        actionStatusListeners := [2, 1], eventSubs := [(10, 1), (11, 1)],
        connectedSubs := [(10, 1), (11, 1)], removedSubs := [(10, 1), (11, 1)],
        modifiedSubs := [(10, 1), (11, 1)], thingCleanups := [10, 11],
        heartbeatActive := true }).thingAddedListeners) :=
  ⟨(cleanup_idempotent 1 _ (by decide) (by decide) (by decide) (by decide)).1,
   (cleanup_idempotent 1 _ (by decide) (by decide) (by decide) (by decide)).2.1⟩

end Gateway
